import Mathlib

/-!
# Verification of the `counselors` dispatch / adapter / executor core

Shallow embedding of the TypeScript source of the `counselors` CLI
(dispatcher, adapters, executor helpers, cost reconciler, id/path
sanitizers), together with theorems settling the specification claims.

Conventions of the embedding:
* JavaScript strings are modelled by Lean `String` (or `List Char` where
  stream accumulation is concerned); lengths are counted in characters.
* JavaScript objects used as string maps are modelled as `String → Option
  String` (for the environment) or as association lists in assignment
  order with last-write-wins lookup.
* Filesystem / process effects (`existsSync`, spawning, usage snapshots,
  thrown exceptions inside a dispatch task) are modelled as explicit
  oracle parameters; fallible code returns `Except`.
* JavaScript numbers appearing in the cost reconciler are modelled by `ℚ`
  (the computation is a few subtractions, `Math.max` and a rounding to
  cents).
-/

namespace Counselors

/-- `ReadOnlyLevel` from `types.ts`: `'enforced' | 'bestEffort' | 'none'`. -/
inductive ReadOnlyLevel where
  | enforced
  | bestEffort
  | none
deriving DecidableEq, Repr

/-- `ToolReport.status` from `types.ts`. -/
inductive RStatus where
  | success
  | error
  | timeout
  | skipped
deriving DecidableEq, Repr

/-- `ToolConfig` from `types.ts` (zod schema `ToolConfigSchema`). -/
structure ToolConfig where
  binary : String
  adapter : Option String := Option.none
  readOnlyLevel : ReadOnlyLevel
  readOnlyFlags : Option (List String) := Option.none
  extraFlags : Option (List String) := Option.none
  timeout : Option Nat := Option.none
  stdinMode : Option Bool := Option.none
deriving DecidableEq, Repr

/-- `Config.defaults` from `types.ts`. -/
structure ConfigDefaults where
  timeout : Nat := 540
  outputDir : String := "./agents/counselors"
  readOnly : ReadOnlyLevel := .bestEffort
  maxContextKb : Nat := 50
  maxParallel : Nat := 4
deriving Repr

/-- `Config` from `types.ts`; the `tools` record is modelled as a map from
tool id to optional configuration. -/
structure Config where
  defaults : ConfigDefaults
  tools : String → Option ToolConfig

/-- `RunRequest` from `types.ts`.  The adapters also read a `model` field
(present in a sibling revision of the type); it is carried as an option. -/
structure RunRequest where
  prompt : String
  promptFilePath : String
  toolId : String
  outputDir : String
  readOnlyPolicy : ReadOnlyLevel
  timeout : Nat
  cwd : String
  binary : Option String := Option.none
  extraFlags : Option (List String) := Option.none
  model : Option String := Option.none
deriving DecidableEq, Repr

/-- `Invocation` from `types.ts`. -/
structure Invocation where
  cmd : String
  args : List String
  env : Option (List (String × String)) := Option.none
  stdin : Option String := Option.none
  cwd : String
deriving DecidableEq, Repr

/-- `ExecResult` from `types.ts`. -/
structure ExecResult where
  exitCode : Int
  stdout : String
  stderr : String
  timedOut : Bool
  durationMs : Nat
deriving DecidableEq, Repr

/-- The source of an amp run's cost in `CostInfo`. -/
inductive CostSource where
  | free
  | credits
deriving DecidableEq, Repr

/-- `CostInfo` from `types.ts`; dollar amounts as rationals. -/
structure CostInfo where
  cost_usd : ℚ
  free_used_usd : ℚ
  credits_used_usd : ℚ
  source : CostSource
  free_remaining_usd : ℚ
  free_total_usd : ℚ
  credits_remaining_usd : ℚ
deriving DecidableEq, Repr

/-- `ToolReport` from `types.ts`. -/
structure ToolReport where
  toolId : String
  status : RStatus
  exitCode : Int
  durationMs : Nat
  wordCount : Nat
  outputFile : String
  stderrFile : String
  cost : Option CostInfo := Option.none
  error : Option String := Option.none
deriving DecidableEq, Repr

/-! ## `constants.ts`: id and path sanitizers -/

/-- Character class `[a-zA-Z0-9._-]` of `sanitizeId` in `constants.ts`. -/
def isSafeIdChar (c : Char) : Bool :=
  ('a' ≤ c && c ≤ 'z') || ('A' ≤ c && c ≤ 'Z') || ('0' ≤ c && c ≤ '9') ||
    c = '.' || c = '_' || c = '-'

/-- `sanitizeId` from `constants.ts`:
`id.replace(/[^a-zA-Z0-9._-]/g, '_')` — every character outside the safe
class is replaced by an underscore. -/
def sanitizeId (id : String) : String :=
  String.mk (id.data.map fun c => if isSafeIdChar c then c else '_')

/-- The character class `[\x00-\x08\x0A-\x1F]` stripped by `sanitizePath`
in `constants.ts` (tab `0x09` is preserved). -/
def isLowCtl (c : Char) : Bool :=
  c.val ≤ 0x08 || (0x0A ≤ c.val && c.val ≤ 0x1F)

/-- `sanitizePath` from `constants.ts`:
`p.replace(/[\x00-\x08\x0A-\x1F]/g, '')`. -/
def sanitizePath (p : String) : String :=
  String.mk (p.data.filter fun c => !isLowCtl c)

/-! ## Adapters

Each built-in adapter's `buildInvocation` is transcribed from its source
file.  `existsSync` on the amp settings files is an explicit oracle
argument `existsFn`, and the XDG config directory a `configDir` argument
(it is derived from the process environment in `constants.ts`). -/

/-- `req.extraFlags ?? []` — the flags appended verbatim by the adapters. -/
def extraOf (req : RunRequest) : List String :=
  req.extraFlags.getD []

/-- The fixed instruction sentence embedding the prompt file path
(`claude.ts`, `codex.ts`, `custom.ts`). -/
def mkInstruction (path : String) : String :=
  "Read the file at " ++ path ++ " and follow the instructions within it."

/-- The read-only flag set of `ClaudeAdapter.buildInvocation`. -/
def claudeRoFlags : List String :=
  ["--tools", "Read,Glob,Grep,WebFetch,WebSearch",
   "--allowedTools", "Read,Glob,Grep,WebFetch,WebSearch",
   "--strict-mcp-config"]

/-- `ClaudeAdapter.buildInvocation` from `claude.ts`.  Note: the prompt
file path is embedded into the instruction sentence unmodified. -/
def claudeBuildInvocation (req : RunRequest) : Invocation :=
  let instruction := mkInstruction req.promptFilePath
  let args := ["-p", "--output-format", "text"] ++ extraOf req ++
    (if req.readOnlyPolicy ≠ .none then claudeRoFlags else []) ++ [instruction]
  { cmd := req.binary.getD "claude", args := args, cwd := req.cwd }

/-- The read-only flag set of `CodexAdapter.buildInvocation`. -/
def codexRoFlags : List String := ["--sandbox", "read-only"]

/-- `CodexAdapter.buildInvocation` from `codex.ts`.  The prompt file path
is passed through `sanitizePath` before being embedded. -/
def codexBuildInvocation (req : RunRequest) : Invocation :=
  let instruction := mkInstruction (sanitizePath req.promptFilePath)
  let args := ["exec"] ++
    (if req.readOnlyPolicy ≠ .none then codexRoFlags else []) ++
    ["-c", "web_search=live", "--skip-git-repo-check"] ++ extraOf req ++
    [instruction]
  { cmd := req.binary.getD "codex", args := args, cwd := req.cwd }

/-- The read-only flag set of `GeminiAdapter.buildInvocation`. -/
def geminiRoFlags : List String :=
  ["--extensions", "",
   "--allowed-tools",
   "read_file", "list_directory", "search_file_content",
   "glob", "google_web_search", "codebase_investigator"]

/-- `GeminiAdapter.buildInvocation` from `gemini.ts` (stdin prompt
delivery; `req.extraFlags` is not consulted by this adapter). -/
def geminiBuildInvocation (req : RunRequest) : Invocation :=
  let args := ["-p", "", "-m", req.model.getD ""] ++
    (if req.readOnlyPolicy ≠ .none then geminiRoFlags else []) ++
    ["--output-format", "text"]
  { cmd := req.binary.getD "gemini", args := args,
    stdin := some req.prompt, cwd := req.cwd }

/-- First index of `a` in `l` (length of `l` when absent), mirroring
JavaScript `Array.prototype.indexOf` under a `includes` guard. -/
def firstIdx (l : List String) (a : String) : Nat :=
  match l with
  | [] => 0
  | b :: t => if b = a then 0 else firstIdx t a + 1

/-- The deep-variant detection of `AmpAdapter`
(`flags?.includes('deep') && flags[flags.indexOf('deep') - 1] === '-m'`).
When `'deep'` is at index 0, JavaScript reads `flags[-1] = undefined` and
the test is false; in the embedding `0 - 1 = 0` reads `'deep'` itself,
which also fails the `= "-m"` test, so the verdicts agree. -/
def ampIsDeep (flags : Option (List String)) : Bool :=
  match flags with
  | Option.none => false
  | some l => l.contains "deep" && l.get? (firstIdx l "deep" - 1) = some "-m"

/-- `AMP_SETTINGS_FILE` from `constants.ts`, relative to the XDG config
directory. -/
def ampSettingsFile (configDir : String) : String :=
  configDir ++ "/amp-readonly-settings.json"

/-- `AMP_DEEP_SETTINGS_FILE` from `constants.ts`. -/
def ampDeepSettingsFile (configDir : String) : String :=
  configDir ++ "/amp-deep-settings.json"

/-- The oracle instruction suffix appended to the amp stdin payload. -/
def ampOracleSuffix : String :=
  "\n\nUse the oracle tool to provide deeper reasoning and analysis on the most complex or critical aspects of this review."

/-- The mandatory safety sentence injected for amp's deep variant. -/
def ampDeepSafetyPrompt : String :=
  "\n\nMANDATORY: Do not change any files. You are in read-only mode."

/-- `AmpAdapter.buildInvocation` (deep-aware revision in the amp adapter
source).  `existsFn` models `existsSync`. -/
def ampBuildInvocation (configDir : String) (existsFn : String → Bool)
    (req : RunRequest) : Invocation :=
  let isDeep := ampIsDeep req.extraFlags
  let settingsFile :=
    if isDeep then ampDeepSettingsFile configDir else ampSettingsFile configDir
  let args := ["-x"] ++ extraOf req ++
    (if req.readOnlyPolicy ≠ .none && existsFn settingsFile then
      ["--settings-file", settingsFile]
    else [])
  let stdinContent := req.prompt ++
    (if isDeep then ampDeepSafetyPrompt else "") ++ ampOracleSuffix
  { cmd := req.binary.getD "amp", args := args,
    stdin := some stdinContent, cwd := req.cwd }

/-- `CustomAdapter.buildInvocation` from `custom.ts` (the revision
matching `types.ts`: `extraFlags`, `readOnly.flags`, `stdin` boolean).
The guard `this.config.readOnly.flags` is JavaScript truthiness on an
array, i.e. field presence (an empty array is truthy). -/
def customBuildInvocation (tc : ToolConfig) (req : RunRequest) : Invocation :=
  let args := extraOf req ++
    (if req.readOnlyPolicy ≠ .none && tc.readOnlyFlags.isSome then
      tc.readOnlyFlags.getD []
    else [])
  let cmd := req.binary.getD tc.binary
  if tc.stdinMode = some true then
    { cmd := cmd, args := args, stdin := some req.prompt, cwd := req.cwd }
  else
    { cmd := cmd, args := args ++ [mkInstruction req.promptFilePath],
      cwd := req.cwd }

/-! ## Adapter resolution and effective read-only levels -/

/-- The adapter families registered in `adapters/index.ts`. -/
inductive AdapterKind where
  | claude
  | codex
  | gemini
  | amp
  | custom
deriving DecidableEq, Repr

/-- `resolveAdapter` from `adapters/index.ts`:
`baseId = toolConfig.adapter ?? id`, built-in lookup, else custom. -/
def resolveAdapterKind (id : String) (tc : ToolConfig) : AdapterKind :=
  let baseId := tc.adapter.getD id
  if baseId = "claude" then .claude
  else if baseId = "codex" then .codex
  else if baseId = "gemini" then .gemini
  else if baseId = "amp" then .amp
  else .custom

/-- The static `readOnly.level` declared by each adapter class
(`custom.ts` copies it from the tool configuration). -/
def staticReadOnlyLevel (k : AdapterKind) (tc : ToolConfig) : ReadOnlyLevel :=
  match k with
  | .claude => .enforced
  | .codex => .enforced
  | .gemini => .bestEffort
  | .amp => .enforced
  | .custom => tc.readOnlyLevel

/-- `getEffectiveReadOnlyLevel`: `BaseAdapter` returns the static level;
`AmpAdapter` overrides it, reporting `bestEffort` for the deep
sub-mode detected from the configured extra flags. -/
def getEffectiveReadOnlyLevel (k : AdapterKind) (tc : ToolConfig) :
    ReadOnlyLevel :=
  match k with
  | .amp => if ampIsDeep tc.extraFlags then .bestEffort else .enforced
  | _ => staticReadOnlyLevel k tc

/-- The effective read-only level the dispatcher computes for a
configured tool: `resolveAdapter` followed by `getEffectiveReadOnlyLevel`
(every adapter class inherits the method from `BaseAdapter`, so the
`adapter.getEffectiveReadOnlyLevel ? … : adapter.readOnly.level` fallback
always takes the first branch). -/
def dispatchEffectiveLevel (id : String) (tc : ToolConfig) : ReadOnlyLevel :=
  getEffectiveReadOnlyLevel (resolveAdapterKind id tc) tc

/-! ## Executor: environment allowlist (`buildSafeEnv`) -/

/-- `ENV_ALLOWLIST` from the executor source. -/
def ENV_ALLOWLIST : List String :=
  ["PATH", "HOME", "USER", "TERM", "LANG", "SHELL", "TMPDIR",
   "XDG_CONFIG_HOME", "XDG_DATA_HOME"]

/-- Last-write-wins lookup over a list of assignments, modelling
JavaScript object key assignment order. -/
def lookupLast (l : List (String × String)) (k : String) : Option String :=
  l.foldl (fun acc p => if p.1 = k then some p.2 else acc) Option.none

/-- The allowlist loop of `buildSafeEnv`: one assignment per allowlisted
name whose parent value is truthy (present and non-empty).  `parent`
models `process.env`. -/
def allowAssignments (parent : String → Option String) :
    List (String × String) :=
  ENV_ALLOWLIST.filterMap fun k =>
    (parent k).bind fun v => if v = "" then Option.none else some (k, v)

/-- `buildSafeEnv` from the executor source, as the ordered list of
assignments it performs: allowlisted parent variables with truthy
values, then `Object.assign(env, extra)`, then the forced `CI` and
`NO_COLOR` values. -/
def buildSafeEnvList (parent : String → Option String)
    (extra : List (String × String)) : List (String × String) :=
  allowAssignments parent ++ extra ++ [("CI", "true"), ("NO_COLOR", "1")]

/-- The child-observable value of variable `k` under `buildSafeEnv`. -/
def safeEnvLookup (parent : String → Option String)
    (extra : List (String × String)) (k : String) : Option String :=
  lookupLast (buildSafeEnvList parent extra) k

/-! ## Executor: output capture with the 10MB ceiling

The `data` handlers of the spawned child's stdout/stderr streams,
transcribed over character lists (a JS string is its sequence of code
units; chunks are `data.toString()`). -/

/-- `MAX_OUTPUT_BYTES = 10 * 1024 * 1024` from the executor source. -/
def MAX_OUTPUT_BYTES : Nat := 10 * 1024 * 1024

/-- The truncation marker appended to stdout at the ceiling. -/
def TRUNC_MARKER : List Char := "\n[output truncated at 10MB]".data

/-- Accumulated stdout plus the `truncated` flag. -/
structure StdoutAcc where
  out : List Char
  truncated : Bool
deriving DecidableEq, Repr

/-- One `child.stdout.on('data', …)` step: append while not truncated and
under the ceiling; on crossing the ceiling, cut back to the ceiling and
append the marker (`stdout.slice(0, MAX_OUTPUT_BYTES) + marker`). -/
def stdoutStep (s : StdoutAcc) (chunk : List Char) : StdoutAcc :=
  if !s.truncated && s.out.length < MAX_OUTPUT_BYTES then
    let out := s.out ++ chunk
    if MAX_OUTPUT_BYTES ≤ out.length then
      { out := out.take MAX_OUTPUT_BYTES ++ TRUNC_MARKER, truncated := true }
    else
      { out := out, truncated := false }
  else s

/-- One `child.stderr.on('data', …)` step: append while under the
ceiling; no truncation and no marker. -/
def stderrStep (s : List Char) (chunk : List Char) : List Char :=
  if s.length < MAX_OUTPUT_BYTES then s ++ chunk else s

/-- Final stdout accumulator after a sequence of data events. -/
def stdoutAfter (chunks : List (List Char)) : StdoutAcc :=
  chunks.foldl stdoutStep ⟨[], false⟩

/-- Final stderr buffer after a sequence of data events. -/
def stderrAfter (chunks : List (List Char)) : List Char :=
  chunks.foldl stderrStep []

/-! ## Vendor cost reconciler (`computeAmpCost` in the amp adapter) -/

/-- A parsed `amp usage` snapshot. -/
structure AmpUsage where
  freeRemaining : ℚ
  freeTotal : ℚ
  creditsRemaining : ℚ
deriving DecidableEq, Repr

/-- `Math.round(x * 100) / 100` (round half toward `+∞`, to cents). -/
def round100 (x : ℚ) : ℚ := (⌊x * 100 + 1/2⌋ : ℚ) / 100

/-- `computeAmpCost` from the amp adapter source. -/
def computeAmpCost (before after : AmpUsage) : CostInfo :=
  let freeUsed := max 0 (before.freeRemaining - after.freeRemaining)
  let creditsUsed := max 0 (before.creditsRemaining - after.creditsRemaining)
  let totalCost := freeUsed + creditsUsed
  let source : CostSource := if creditsUsed > 0 then .credits else .free
  { cost_usd := round100 totalCost
    free_used_usd := round100 freeUsed
    credits_used_usd := round100 creditsUsed
    source := source
    free_remaining_usd := after.freeRemaining
    free_total_usd := after.freeTotal
    credits_remaining_usd := after.creditsRemaining }

/-! ## Dispatcher (`dispatch` in the core)

Concurrency is irrelevant to the report values: `tasks` is built by
mapping over `eligibleTools`, `p-limit` returns each task's own promise,
and `Promise.allSettled` preserves the array order, so the reduction is a
per-element map over the eligible list.  The per-task effects — a
synchronous throw from `buildInvocation` (or a later task-local failure)
versus a completed execution with an optional cost delta — are supplied
per tool id by a `TaskOutcome` oracle. -/

/-- Outcome of one dispatch task's effects for one tool id. -/
inductive TaskOutcome where
  | throws (msg : String)
  | runs (res : ExecResult) (cost : Option CostInfo)

/-- The JavaScript `\s` class on the characters relevant here (ASCII
whitespace; the exotic Unicode space separators are not modelled). -/
def isJsWs (c : Char) : Bool :=
  c = ' ' || c = '\t' || c = '\n' || c = '\r' || c = '\x0b' || c = '\x0c'

/-- Counts maximal non-whitespace runs; the `inWord` flag records whether
the previous character was part of a word. -/
def countWordsGo : List Char → Bool → Nat
  | [], _ => 0
  | c :: t, inWord =>
    if isJsWs c then countWordsGo t false
    else (if inWord then 0 else 1) + countWordsGo t true

/-- `stdout.split(/\s+/).filter(Boolean).length`. -/
def countWords (s : String) : Nat := countWordsGo s.data false

/-- `join(outputDir, sanitizeId(id) + '.md')`; with a separator-free
sanitized name, `path.join` appends it after one separator. -/
def outputFilePath (outputDir id : String) : String :=
  outputDir ++ "/" ++ sanitizeId id ++ ".md"

/-- `join(outputDir, sanitizeId(id) + '.stderr')`. -/
def stderrFilePath (outputDir id : String) : String :=
  outputDir ++ "/" ++ sanitizeId id ++ ".stderr"

/-- `join(outputDir, sanitizeId(id) + '.stats.json')`. -/
def statsFilePath (outputDir id : String) : String :=
  outputDir ++ "/" ++ sanitizeId id ++ ".stats.json"

/-- The `ToolReport` literal built at the end of a dispatch task.  The
`...parsed` spread re-assigns `status`, `exitCode`, `durationMs` and
`wordCount` with the values `BaseAdapter.parseResult` computes by the
same formulas, so the merged record equals this literal. -/
def mkReport (outputDir id : String) (res : ExecResult)
    (cost : Option CostInfo) : ToolReport :=
  { toolId := id
    status :=
      if res.timedOut then .timeout
      else if res.exitCode = 0 then .success
      else .error
    exitCode := res.exitCode
    durationMs := res.durationMs
    wordCount := countWords res.stdout
    outputFile := outputFilePath outputDir id
    stderrFile := stderrFilePath outputDir id
    cost := cost
    error :=
      if res.exitCode ≠ 0 then some (String.mk (res.stderr.data.take 500))
      else Option.none }

/-- `(toolConfig.adapter ?? id) === 'amp'` — the gate for amp cost
tracking inside a task. -/
def isAmpTool (cfg : Config) (id : String) : Bool :=
  match cfg.tools id with
  | some tc => tc.adapter.getD id = "amp"
  | Option.none => false

/-- The per-tool filter predicate of `dispatch`: unconfigured tools are
dropped; under policy `enforced`, tools whose effective read-only level
is not `enforced` are dropped. -/
def keepTool (p : ReadOnlyLevel) (id : String) (tc? : Option ToolConfig) :
    Bool :=
  match tc? with
  | Option.none => false
  | some tc =>
    if p = .enforced then dispatchEffectiveLevel id tc = .enforced else true

/-- `eligibleTools` — the filtered tool id list of `dispatch`. -/
def eligibleTools (cfg : Config) (toolIds : List String)
    (p : ReadOnlyLevel) : List String :=
  toolIds.filter fun id => keepTool p id (cfg.tools id)

/-- The message of the error thrown on an empty eligible set. -/
def noEligibleMsg : String :=
  "No eligible tools after read-only policy filtering."

/-- The synthetic report built from a rejected task in the
`Promise.allSettled` reduction (`r.reason?.message ?? 'Unknown error'`
is the `msg` carried by the oracle). -/
def syntheticErrorReport (id msg : String) : ToolReport :=
  { toolId := id, status := .error, exitCode := 1, durationMs := 0,
    wordCount := 0, outputFile := "", stderrFile := "",
    error := some msg }

/-- One dispatch task: a thrown exception rejects the task's promise;
otherwise the report is assembled from the execution result, with the
cost delta kept only for amp-family tools. -/
def runTask (cfg : Config) (outputDir : String)
    (oracle : String → TaskOutcome) (id : String) :
    Except String ToolReport :=
  match oracle id with
  | .throws m => .error m
  | .runs res cost =>
    .ok (mkReport outputDir id res
      (if isAmpTool cfg id then cost else Option.none))

/-- `dispatch` from the dispatcher source: filter, empty-set guard, one
task per eligible tool, all-settled reduction to one report per tool. -/
def dispatch (cfg : Config) (toolIds : List String) (outputDir : String)
    (p : ReadOnlyLevel) (oracle : String → TaskOutcome) :
    Except String (List ToolReport) :=
  let eligible := eligibleTools cfg toolIds p
  if eligible.isEmpty then
    .error noEligibleMsg
  else
    .ok (eligible.map fun id =>
      match runTask cfg outputDir oracle id with
      | .ok r => r
      | .error m => syntheticErrorReport id m)

/-! ## Concrete fixtures used by witnesses -/

/-- A configured claude tool. -/
def tcClaude : ToolConfig := { binary := "claude", readOnlyLevel := .enforced }

/-- A configuration with exactly the `claude` tool configured. -/
def cfgW : Config :=
  { defaults := {}, tools := fun id =>
      if id = "claude" then some tcClaude else Option.none }

/-- An oracle whose every task throws `"boom"`. -/
def oracleThrow : String → TaskOutcome := fun _ => .throws "boom"

/-- A successful execution result. -/
def resOK : ExecResult :=
  { exitCode := 0, stdout := "OK", stderr := "", timedOut := false,
    durationMs := 5 }

/-- An oracle whose every task runs successfully with no cost info. -/
def oracleOK : String → TaskOutcome := fun _ => .runs resOK Option.none

/-! ## Helper lemmas about the dispatcher -/

/-- The settled report of one task carries the task's tool id, in both
the fulfilled and the rejected branch. -/
lemma settled_toolId (cfg : Config) (outputDir : String)
    (oracle : String → TaskOutcome) (id : String) :
    (match runTask cfg outputDir oracle id with
      | .ok r => r
      | .error m => syntheticErrorReport id m).toolId = id := by
  cases h : oracle id <;>
    simp [runTask, h, syntheticErrorReport, mkReport]

lemma dispatch_ok (cfg : Config) (toolIds : List String)
    (outputDir : String) (p : ReadOnlyLevel)
    (oracle : String → TaskOutcome) (rs : List ToolReport)
    (h : dispatch cfg toolIds outputDir p oracle = .ok rs) :
    rs = (eligibleTools cfg toolIds p).map fun id =>
      match runTask cfg outputDir oracle id with
      | .ok r => r
      | .error m => syntheticErrorReport id m := by
  unfold dispatch at h
  by_cases he : (eligibleTools cfg toolIds p).isEmpty <;> simp [he] at h
  exact h.symm

/-! ## Claim theorems: dispatcher -/

/-- C1: for every requested read-only policy `p` and every configured
tool with effective read-only level `L` (the adapter's
`getEffectiveReadOnlyLevel` applied to the tool's configuration,
defaulting to the adapter's static level), the dispatcher's filter keeps
the tool in the eligible set iff `p ≠ enforced` or `L = enforced`. -/
theorem dispatch_filter_eligibility_iff (p : ReadOnlyLevel) (cfg : Config)
    (toolIds : List String) (id : String) (tc : ToolConfig)
    (hc : cfg.tools id = some tc) :
    id ∈ eligibleTools cfg toolIds p ↔
      id ∈ toolIds ∧
        (p ≠ .enforced ∨ dispatchEffectiveLevel id tc = .enforced) := by
  simp only [eligibleTools, List.mem_filter, hc, keepTool]
  by_cases hp : p = .enforced <;> simp [hp]

/-- Witness for C1 at a concrete configuration and policy. -/
theorem dispatch_filter_eligibility_iff_witness :
    "claude" ∈ eligibleTools cfgW ["claude"] .bestEffort ↔
      "claude" ∈ ["claude"] ∧
        (ReadOnlyLevel.bestEffort ≠ .enforced ∨
          dispatchEffectiveLevel "claude" tcClaude = .enforced) :=
  dispatch_filter_eligibility_iff .bestEffort cfgW ["claude"] "claude"
    tcClaude rfl

/-- C3: a dispatch whose eligible-tool set is empty after filtering
rejects with the distinct descriptive error, and `dispatch` never
resolves with an empty report list. -/
theorem dispatch_empty_eligible_rejects (cfg : Config)
    (toolIds : List String) (outputDir : String) (p : ReadOnlyLevel)
    (oracle : String → TaskOutcome) :
    (eligibleTools cfg toolIds p = [] →
      dispatch cfg toolIds outputDir p oracle = .error noEligibleMsg) ∧
    ∀ rs, dispatch cfg toolIds outputDir p oracle = .ok rs → rs ≠ [] := by
  constructor
  · intro h
    unfold dispatch
    simp [h]
  · intro rs h hnil
    have hrs := dispatch_ok cfg toolIds outputDir p oracle rs h
    unfold dispatch at h
    by_cases he : (eligibleTools cfg toolIds p).isEmpty <;> simp [he] at h
    subst hnil
    rw [List.isEmpty_iff] at he
    exact he (List.map_eq_nil.mp hrs.symm)

/-- Witness for C3: a request whose only tool id is unconfigured. -/
theorem dispatch_empty_eligible_rejects_witness :
    dispatch cfgW ["nope"] "out" .bestEffort oracleThrow =
      .error noEligibleMsg :=
  (dispatch_empty_eligible_rejects cfgW ["nope"] "out" .bestEffort
    oracleThrow).1 rfl

/-- C10: the report list returned by `dispatch` is positionally aligned
with the filtered eligible-tool list: the `i`-th report's `toolId` is the
`i`-th eligible tool id (for completed tasks and synthetic error-path
entries alike). -/
theorem dispatch_reports_ordered (cfg : Config) (toolIds : List String)
    (outputDir : String) (p : ReadOnlyLevel)
    (oracle : String → TaskOutcome) (rs : List ToolReport)
    (h : dispatch cfg toolIds outputDir p oracle = .ok rs) :
    rs.length = (eligibleTools cfg toolIds p).length ∧
    ∀ i id, (eligibleTools cfg toolIds p).get? i = some id →
      ∃ r, rs.get? i = some r ∧ r.toolId = id := by
  have hrs := dispatch_ok cfg toolIds outputDir p oracle rs h
  subst hrs
  refine ⟨List.length_map _ _, ?_⟩
  intro i id hid
  refine ⟨_, by rw [List.get?_map, hid]; rfl, ?_⟩
  exact settled_toolId cfg outputDir oracle id

/-- Witness for C10 at a concrete one-tool dispatch. -/
theorem dispatch_reports_ordered_witness :
    ([syntheticErrorReport "claude" "boom"] :
        List ToolReport).length =
      (eligibleTools cfgW ["claude"] .bestEffort).length :=
  (dispatch_reports_ordered cfgW ["claude"] "out" .bestEffort oracleThrow
    [syntheticErrorReport "claude" "boom"] rfl).1

/-- C2: a dispatch over `N` eligible tools returns exactly `N` reports
even when some task throws (for example from `buildInvocation`): the
throwing tool's report has status `error` carrying the exception
message, and the reports of the other tools do not depend on that
tool's outcome. -/
theorem dispatch_settles_every_task (cfg : Config)
    (toolIds : List String) (outputDir : String) (p : ReadOnlyLevel)
    (o o' : String → TaskOutcome) (rs rs' : List ToolReport)
    (h : dispatch cfg toolIds outputDir p o = .ok rs)
    (h' : dispatch cfg toolIds outputDir p o' = .ok rs') :
    rs.length = (eligibleTools cfg toolIds p).length ∧
    (∀ i id m, (eligibleTools cfg toolIds p).get? i = some id →
      o id = .throws m →
        ∃ r, rs.get? i = some r ∧ r.status = .error ∧ r.error = some m) ∧
    ∀ t : String, (∀ u, u ≠ t → o u = o' u) →
      ∀ i id, (eligibleTools cfg toolIds p).get? i = some id → id ≠ t →
        rs.get? i = rs'.get? i := by
  have hrs := dispatch_ok cfg toolIds outputDir p o rs h
  have hrs' := dispatch_ok cfg toolIds outputDir p o' rs' h'
  subst hrs; subst hrs'
  refine ⟨List.length_map _ _, ?_, ?_⟩
  · intro i id m hid hm
    refine ⟨syntheticErrorReport id m, ?_, by simp [syntheticErrorReport]⟩
    rw [List.get?_map, hid]
    simp [runTask, hm]
  · intro t hagree i id hid hne
    rw [List.get?_map, List.get?_map, hid]
    simp only [Option.map_some', runTask, hagree _ hne]

/-- Witness for C2: one eligible tool whose task throws `"boom"`; its
report has status `error` with the exception message. -/
theorem dispatch_settles_every_task_witness :
    (([syntheticErrorReport "claude" "boom"] : List ToolReport).get? 0).map
        ToolReport.status = some .error ∧
      (([syntheticErrorReport "claude" "boom"] : List ToolReport).get? 0).map
        ToolReport.error = some (some "boom") := by
  obtain ⟨r, hr, hs, he⟩ :=
    (dispatch_settles_every_task cfgW ["claude"] "out" .bestEffort
      oracleThrow oracleThrow [syntheticErrorReport "claude" "boom"]
      [syntheticErrorReport "claude" "boom"] rfl rfl).2.1
      0 "claude" "boom" rfl rfl
  rw [hr]
  simp [hs, he]

/-! ## Claim theorems: id sanitization and output paths (C7) -/

/-- `path` designates a file directly inside `dir`: it is `dir`, a
separator, and a final name that is not empty, not a `.`/`..` component,
and contains no path separator. -/
def fileInDir (dir path : String) : Prop :=
  ∃ name : String, path = dir ++ "/" ++ name ∧
    name ≠ "" ∧ name ≠ "." ∧ name ≠ ".." ∧ '/' ∉ name.data

lemma sanitizeId_no_slash (id : String) : '/' ∉ (sanitizeId id).data := by
  intro hmem
  simp only [sanitizeId, List.mem_map] at hmem
  obtain ⟨c, _, hc⟩ := hmem
  by_cases h : isSafeIdChar c
  · rw [if_pos h] at hc
    subst hc
    exact absurd h (by decide)
  · rw [if_neg h] at hc
    exact absurd hc (by decide)

lemma fileInDir_sanitized (dir id suffix : String)
    (hs : '/' ∉ suffix.data) (h3 : 3 ≤ suffix.data.length) :
    fileInDir dir (dir ++ "/" ++ (sanitizeId id ++ suffix)) := by
  have hdata : (sanitizeId id ++ suffix).data =
      (sanitizeId id).data ++ suffix.data := String.data_append _ _
  have hlen : 3 ≤ (sanitizeId id ++ suffix).data.length := by
    rw [hdata, List.length_append]
    omega
  refine ⟨sanitizeId id ++ suffix, rfl, ?_, ?_, ?_, ?_⟩
  · intro h
    rw [h] at hlen
    exact absurd hlen (by decide)
  · intro h
    rw [h] at hlen
    exact absurd hlen (by decide)
  · intro h
    rw [h] at hlen
    exact absurd hlen (by decide)
  · rw [hdata]
    intro hmem
    rcases List.mem_append.mp hmem with h | h
    · exact sanitizeId_no_slash id h
    · exact hs h

/-- C7: `sanitizeId` replaces every character outside `[a-zA-Z0-9._-]`
with an underscore, and for every tool id (including ids with
path-traversal sequences) each of the dispatcher's three persisted file
paths — output, stderr, stats — lies directly inside the configured
output directory. -/
theorem sanitized_paths_inside_output_dir (outputDir id : String) :
    (sanitizeId id).data =
      (id.data.map fun c => if isSafeIdChar c then c else '_') ∧
    fileInDir outputDir (outputFilePath outputDir id) ∧
    fileInDir outputDir (stderrFilePath outputDir id) ∧
    fileInDir outputDir (statsFilePath outputDir id) := by
  refine ⟨rfl, ?_, ?_, ?_⟩
  · have := fileInDir_sanitized outputDir id ".md" (by decide) (by decide)
    rwa [show outputDir ++ "/" ++ (sanitizeId id ++ ".md") =
      outputFilePath outputDir id by
        simp [outputFilePath, String.append_assoc]] at this
  · have := fileInDir_sanitized outputDir id ".stderr" (by decide) (by decide)
    rwa [show outputDir ++ "/" ++ (sanitizeId id ++ ".stderr") =
      stderrFilePath outputDir id by
        simp [stderrFilePath, String.append_assoc]] at this
  · have := fileInDir_sanitized outputDir id ".stats.json" (by decide)
      (by decide)
    rwa [show outputDir ++ "/" ++ (sanitizeId id ++ ".stats.json") =
      statsFilePath outputDir id by
        simp [statsFilePath, String.append_assoc]] at this

/-! ## Claim theorems: cost reconciler (C8) -/

lemma round100_zero : round100 0 = 0 := by
  unfold round100
  rw [show (0:ℚ) * 100 + 1/2 = 1/2 by ring]
  norm_num [Int.floor_eq_zero_iff]

/-- C8: the cost reconciler computes each used amount as the
non-negative decrease of its balance (negative differences clamp to
zero, actual decreases are reported rounded to cents), attributes
`source` to `credits` iff the paid-credit balance decreased (else
`free`), and yields total cost exactly zero when neither balance
changed. -/
theorem computeAmpCost_spec (b a : AmpUsage) :
    ((computeAmpCost b a).source = .credits ↔
      a.creditsRemaining < b.creditsRemaining) ∧
    (a.freeRemaining = b.freeRemaining →
      a.creditsRemaining = b.creditsRemaining →
      (computeAmpCost b a).cost_usd = 0 ∧
        (computeAmpCost b a).free_used_usd = 0 ∧
        (computeAmpCost b a).credits_used_usd = 0) ∧
    (b.freeRemaining ≤ a.freeRemaining →
      (computeAmpCost b a).free_used_usd = 0) ∧
    (b.creditsRemaining ≤ a.creditsRemaining →
      (computeAmpCost b a).credits_used_usd = 0) ∧
    (a.freeRemaining ≤ b.freeRemaining →
      (computeAmpCost b a).free_used_usd =
        round100 (b.freeRemaining - a.freeRemaining)) ∧
    (a.creditsRemaining ≤ b.creditsRemaining →
      (computeAmpCost b a).credits_used_usd =
        round100 (b.creditsRemaining - a.creditsRemaining)) := by
  have hiff : ((0:ℚ) < max 0 (b.creditsRemaining - a.creditsRemaining)) ↔
      a.creditsRemaining < b.creditsRemaining := by
    rw [lt_max_iff]
    simp [sub_pos]
  refine ⟨?_, ?_, ?_, ?_, ?_, ?_⟩
  · simp only [computeAmpCost]
    split_ifs with h
    · simp [hiff.mp h]
    · simp [show ¬ (a.creditsRemaining < b.creditsRemaining) from
        fun hc => h (hiff.mpr hc)]
  · intro hf hc
    simp [computeAmpCost, hf, hc, round100_zero]
  · intro h
    have h0 : b.freeRemaining - a.freeRemaining ≤ 0 := sub_nonpos.mpr h
    simp [computeAmpCost, max_eq_left h0, round100_zero]
  · intro h
    have h0 : b.creditsRemaining - a.creditsRemaining ≤ 0 :=
      sub_nonpos.mpr h
    simp [computeAmpCost, max_eq_left h0, round100_zero]
  · intro h
    have h0 : 0 ≤ b.freeRemaining - a.freeRemaining := sub_nonneg.mpr h
    simp [computeAmpCost, max_eq_right h0]
  · intro h
    have h0 : 0 ≤ b.creditsRemaining - a.creditsRemaining :=
      sub_nonneg.mpr h
    simp [computeAmpCost, max_eq_right h0]

/-- A usage snapshot taken before a run. -/
def ampBeforeW : AmpUsage :=
  { freeRemaining := 10, freeTotal := 20, creditsRemaining := 5 }

/-- A usage snapshot taken after a run that consumed paid credits. -/
def ampAfterW : AmpUsage :=
  { freeRemaining := 10, freeTotal := 20, creditsRemaining := 3 }

/-- Witness for C8: a credits-only decrease is attributed to `credits`. -/
theorem computeAmpCost_spec_witness :
    (computeAmpCost ampBeforeW ampAfterW).source = .credits :=
  (computeAmpCost_spec ampBeforeW ampAfterW).1.mpr
    (by norm_num [ampBeforeW, ampAfterW])

/-! ## Claim theorems: prompt-path control-character stripping (C9) -/

lemma mkInstruction_data (p : String) :
    (mkInstruction p).data =
      ("Read the file at ").data ++ p.data ++
        (" and follow the instructions within it.").data := by
  simp [mkInstruction, String.data_append]

/-- A request whose prompt file path smuggles a newline. -/
def reqC9 : RunRequest :=
  { prompt := "p", promptFilePath := "x\ny", toolId := "claude",
    outputDir := "out", readOnlyPolicy := .bestEffort, timeout := 540,
    cwd := "." }

/-- Counterexample to C9: the claude adapter is an argument-mode adapter,
yet the instruction argument it builds from a path containing `\n`
(a low control character, `0x0A`) still contains that character — the
path is embedded without `sanitizePath`. -/
theorem claude_embeds_raw_path_counterexample :
    '\n' ∈ ((claudeBuildInvocation reqC9).args.getLastD "").data ∧
      isLowCtl '\n' = true := by decide

/-- C9 (amended): the codex argument-mode adapter strips the low control
characters (`0x00`–`0x08`, `0x0A`–`0x1F`) from the prompt file path
before embedding it, so its instruction argument contains none of them;
the claude and custom argument-mode adapters embed the path unmodified. -/
theorem codex_instruction_strips_control_chars (req : RunRequest) :
    ∀ c ∈ ((codexBuildInvocation req).args.getLastD "").data,
      isLowCtl c = false := by
  have hargs : (codexBuildInvocation req).args =
      (["exec"] ++ (if req.readOnlyPolicy ≠ .none then codexRoFlags else [])
        ++ ["-c", "web_search=live", "--skip-git-repo-check"] ++
        extraOf req) ++
      [mkInstruction (sanitizePath req.promptFilePath)] := by
    simp [codexBuildInvocation]
  rw [hargs, List.getLastD_concat]
  intro c hc
  rw [mkInstruction_data] at hc
  rcases List.mem_append.mp hc with h | h
  · rcases List.mem_append.mp h with h2 | h2
    · exact (by decide :
        ∀ c ∈ ("Read the file at ").data, isLowCtl c = false) c h2
    · simp only [sanitizePath, List.mem_filter] at h2
      simpa using h2.2
  · exact (by decide :
      ∀ c ∈ (" and follow the instructions within it.").data,
        isLowCtl c = false) c h

/-- Witness for the amended C9 at a concrete request and character. -/
theorem codex_instruction_strips_control_chars_witness :
    isLowCtl 'R' = false :=
  codex_instruction_strips_control_chars reqC9 'R' (by decide)

/-! ## Claim theorems: read-only flag injection (C4) -/

lemma mkInstruction_head (p : String) :
    (mkInstruction p).data.head? = some 'R' := by
  rw [mkInstruction_data]
  rfl

lemma mkInstruction_ne (p f : String) (hf : f.data.head? ≠ some 'R') :
    mkInstruction p ≠ f :=
  fun h => hf (h ▸ mkInstruction_head p)

/-- A run request for the amp tool under the `bestEffort` policy. -/
def reqC4 : RunRequest :=
  { prompt := "p", promptFilePath := "f.md", toolId := "amp",
    outputDir := "out", readOnlyPolicy := .bestEffort, timeout := 540,
    cwd := "." }

/-- Counterexample to C4: with policy `bestEffort` (not `none`) but the
amp read-only settings file absent from disk, `AmpAdapter.buildInvocation`
does not include its read-only flag set (`--settings-file …`). -/
theorem amp_flags_absent_counterexample :
    reqC4.readOnlyPolicy = .bestEffort ∧
      ¬ ["--settings-file", ampSettingsFile "/etc/xdg/counselors"] <:+:
        (ampBuildInvocation "/etc/xdg/counselors" (fun _ => false)
          reqC4).args := by decide

/-- C4 (amended): with policy `none` no adapter injects its read-only
flag set (the argument list does not contain it, provided the configured
extra flags do not themselves smuggle it); with policy `bestEffort` or
`enforced`, claude, codex, gemini and a custom adapter with configured
read-only flags always include their flag set, while amp includes its
`--settings-file` flag pair iff the relevant settings file exists on
disk. -/
theorem adapter_readonly_flag_injection (req : RunRequest)
    (configDir : String) (existsFn : String → Bool) (tc : ToolConfig) :
    (req.readOnlyPolicy ≠ .none →
      claudeRoFlags <:+: (claudeBuildInvocation req).args) ∧
    (req.readOnlyPolicy = .none → "--strict-mcp-config" ∉ extraOf req →
      ¬ claudeRoFlags <:+: (claudeBuildInvocation req).args) ∧
    (req.readOnlyPolicy ≠ .none →
      codexRoFlags <:+: (codexBuildInvocation req).args) ∧
    (req.readOnlyPolicy = .none → "--sandbox" ∉ extraOf req →
      ¬ codexRoFlags <:+: (codexBuildInvocation req).args) ∧
    (req.readOnlyPolicy ≠ .none →
      geminiRoFlags <:+: (geminiBuildInvocation req).args) ∧
    (req.readOnlyPolicy = .none →
      ¬ geminiRoFlags <:+: (geminiBuildInvocation req).args) ∧
    ("--settings-file" ∉ extraOf req →
      (["--settings-file",
          if ampIsDeep req.extraFlags then ampDeepSettingsFile configDir
          else ampSettingsFile configDir] <:+:
            (ampBuildInvocation configDir existsFn req).args ↔
        req.readOnlyPolicy ≠ .none ∧
          existsFn
            (if ampIsDeep req.extraFlags then ampDeepSettingsFile configDir
             else ampSettingsFile configDir) = true)) ∧
    (∀ fs, req.readOnlyPolicy ≠ .none → tc.readOnlyFlags = some fs →
      fs <:+: (customBuildInvocation tc req).args) ∧
    (∀ fs f, req.readOnlyPolicy = .none → tc.readOnlyFlags = some fs →
      f ∈ fs → f ∉ extraOf req → f ≠ mkInstruction req.promptFilePath →
      ¬ fs <:+: (customBuildInvocation tc req).args) := by
  refine ⟨?_, ?_, ?_, ?_, ?_, ?_, ?_, ?_, ?_⟩
  · intro hp
    refine ⟨["-p", "--output-format", "text"] ++ extraOf req,
      [mkInstruction req.promptFilePath], ?_⟩
    simp [claudeBuildInvocation, hp]
  · intro hp hextra hinf
    have hargs : (claudeBuildInvocation req).args =
        ["-p", "--output-format", "text"] ++ extraOf req ++
          [mkInstruction req.promptFilePath] := by
      simp [claudeBuildInvocation, hp]
    have hmem := hinf.subset
      (show "--strict-mcp-config" ∈ claudeRoFlags by decide)
    rw [hargs] at hmem
    rcases List.mem_append.mp hmem with h | h
    · rcases List.mem_append.mp h with h2 | h2
      · exact absurd h2 (by decide)
      · exact hextra h2
    · have h2 : "--strict-mcp-config" = mkInstruction req.promptFilePath := by
        simpa using h
      exact mkInstruction_ne req.promptFilePath "--strict-mcp-config"
        (by decide) h2.symm
  · intro hp
    refine ⟨["exec"], ["-c", "web_search=live", "--skip-git-repo-check"] ++
      extraOf req ++ [mkInstruction (sanitizePath req.promptFilePath)], ?_⟩
    simp [codexBuildInvocation, hp]
  · intro hp hextra hinf
    have hargs : (codexBuildInvocation req).args =
        ["exec", "-c", "web_search=live", "--skip-git-repo-check"] ++
          extraOf req ++ [mkInstruction (sanitizePath req.promptFilePath)] := by
      simp [codexBuildInvocation, hp]
    have hmem := hinf.subset (show "--sandbox" ∈ codexRoFlags by decide)
    rw [hargs] at hmem
    rcases List.mem_append.mp hmem with h | h
    · rcases List.mem_append.mp h with h2 | h2
      · exact absurd h2 (by decide)
      · exact hextra h2
    · have h2 : "--sandbox" = mkInstruction (sanitizePath req.promptFilePath) := by
        simpa using h
      exact mkInstruction_ne (sanitizePath req.promptFilePath) "--sandbox"
        (by decide) h2.symm
  · intro hp
    refine ⟨["-p", "", "-m", req.model.getD ""],
      ["--output-format", "text"], ?_⟩
    simp [geminiBuildInvocation, hp]
  · intro hp hinf
    have hlen := hinf.length_le
    simp [geminiBuildInvocation, hp, geminiRoFlags] at hlen
  · intro hextra
    have hargs : (ampBuildInvocation configDir existsFn req).args =
        ["-x"] ++ extraOf req ++
          (if req.readOnlyPolicy ≠ .none &&
              existsFn (if ampIsDeep req.extraFlags then
                ampDeepSettingsFile configDir else ampSettingsFile configDir)
           then ["--settings-file",
              if ampIsDeep req.extraFlags then ampDeepSettingsFile configDir
              else ampSettingsFile configDir]
           else []) := rfl
    constructor
    · intro hinf
      have hmem := hinf.subset
        (show "--settings-file" ∈ ["--settings-file",
          if ampIsDeep req.extraFlags then ampDeepSettingsFile configDir
          else ampSettingsFile configDir] by simp)
      rw [hargs] at hmem
      rcases List.mem_append.mp hmem with h | h
      · rcases List.mem_append.mp h with h2 | h2
        · exact absurd h2 (by decide)
        · exact absurd h2 hextra
      · by_cases hc : (decide (req.readOnlyPolicy ≠ ReadOnlyLevel.none) &&
            existsFn (if ampIsDeep req.extraFlags then
              ampDeepSettingsFile configDir
              else ampSettingsFile configDir)) = true
        · rcases Bool.and_eq_true_iff.mp hc with ⟨h1, h2⟩
          exact ⟨of_decide_eq_true h1, h2⟩
        · rw [if_neg hc] at h
          exact absurd h (by decide)
    · rintro ⟨hp, he⟩
      have hcond : (decide (req.readOnlyPolicy ≠ ReadOnlyLevel.none) &&
          existsFn (if ampIsDeep req.extraFlags then
            ampDeepSettingsFile configDir
            else ampSettingsFile configDir)) = true :=
        Bool.and_eq_true_iff.mpr ⟨decide_eq_true hp, he⟩
      refine ⟨["-x"] ++ extraOf req, [], ?_⟩
      rw [hargs, if_pos hcond]
      simp
  · intro fs hp hfs
    by_cases hm : tc.stdinMode = some true
    · refine ⟨extraOf req, [], ?_⟩
      simp [customBuildInvocation, hm, hp, hfs]
    · refine ⟨extraOf req, [mkInstruction req.promptFilePath], ?_⟩
      simp [customBuildInvocation, hm, hp, hfs]
  · intro fs f hp hfs hf hextra hne hinf
    have hmem : f ∈ (customBuildInvocation tc req).args := hinf.subset hf
    by_cases hm : tc.stdinMode = some true
    · have hargs : (customBuildInvocation tc req).args = extraOf req := by
        simp [customBuildInvocation, hm, hp]
      rw [hargs] at hmem
      exact hextra hmem
    · have hargs : (customBuildInvocation tc req).args =
          extraOf req ++ [mkInstruction req.promptFilePath] := by
        simp [customBuildInvocation, hm, hp]
      rw [hargs] at hmem
      rcases List.mem_append.mp hmem with h | h
      · exact hextra h
      · exact hne (by simpa using h)

/-- Witness for the amended C4: claude with policy `bestEffort` includes
its read-only flag set. -/
theorem adapter_readonly_flag_injection_witness :
    claudeRoFlags <:+: (claudeBuildInvocation reqC4).args :=
  (adapter_readonly_flag_injection reqC4 "/etc/xdg/counselors"
    (fun _ => false) tcClaude).1 (by decide)

end Counselors

namespace Counselors

/-! ## Claim theorems: environment allowlist (C5) -/

lemma lookupLast_foldl (l : List (String × String)) (k : String)
    (acc : Option String) :
    l.foldl (fun acc p => if p.1 = k then some p.2 else acc) acc =
      (lookupLast l k).elim acc some := by
  induction l generalizing acc with
  | nil => simp [lookupLast]
  | cons p t ih =>
    simp only [lookupLast, List.foldl_cons]
    rw [ih (if p.1 = k then some p.2 else acc),
      ih (if p.1 = k then some p.2 else Option.none)]
    cases h : t.foldl (fun acc p => if p.1 = k then some p.2 else acc)
        Option.none with
    | some v => simp [lookupLast, h]
    | none =>
      simp only [lookupLast, h]
      by_cases hp : p.1 = k <;> simp [hp]

lemma lookupLast_cons (p : String × String) (l : List (String × String))
    (k : String) :
    lookupLast (p :: l) k =
      (lookupLast l k).elim (if p.1 = k then some p.2 else Option.none)
        some := by
  simp only [lookupLast, List.foldl_cons]
  exact lookupLast_foldl l k _

lemma lookupLast_append (l₁ l₂ : List (String × String)) (k : String) :
    lookupLast (l₁ ++ l₂) k =
      (lookupLast l₂ k).elim (lookupLast l₁ k) some := by
  simp only [lookupLast, List.foldl_append]
  exact lookupLast_foldl l₂ k _

lemma lookupLast_eq_none_of (l : List (String × String)) (k : String)
    (h : ∀ p ∈ l, p.1 ≠ k) : lookupLast l k = Option.none := by
  induction l with
  | nil => rfl
  | cons p t ih =>
    rw [lookupLast_cons, ih (fun q hq => h q (List.mem_cons_of_mem p hq)),
      if_neg (h p (List.mem_cons_self p t))]
    rfl

lemma fst_mem_of_mem_filterMap (names : List String)
    (parent : String → Option String) (p : String × String)
    (h : p ∈ names.filterMap fun n =>
      (parent n).bind fun w => if w = "" then Option.none else some (n, w)) :
    p.1 ∈ names := by
  simp only [List.mem_filterMap] at h
  obtain ⟨n, hn, hp⟩ := h
  rcases Option.bind_eq_some.mp hp with ⟨w, _, hif⟩
  by_cases hww : w = ""
  · rw [if_pos hww] at hif
    cases hif
  · rw [if_neg hww] at hif
    cases hif
    exact hn

lemma lookupLast_filterMap_names (names : List String)
    (parent : String → Option String) (k v : String)
    (hnd : names.Nodup) (hk : k ∈ names) (hv : parent k = some v)
    (hne : v ≠ "") :
    lookupLast (names.filterMap fun n =>
      (parent n).bind fun w => if w = "" then Option.none else some (n, w))
      k = some v := by
  induction names with
  | nil => cases hk
  | cons n t ih =>
    rw [List.filterMap_cons]
    rcases List.mem_cons.mp hk with rfl | hk2
    · have hfk : (parent k).bind
          (fun w => if w = "" then Option.none else some (k, w)) =
            some (k, v) := by
        rw [hv]
        simp [hne]
      rw [hfk]
      have hrest : lookupLast (t.filterMap fun n =>
          (parent n).bind fun w =>
            if w = "" then Option.none else some (n, w)) k =
          Option.none := by
        refine lookupLast_eq_none_of _ _ fun p hp hpk => ?_
        have := fst_mem_of_mem_filterMap t parent p hp
        rw [hpk] at this
        exact (List.nodup_cons.mp hnd).1 this
      rw [lookupLast_cons, hrest]
      simp
    · have hn : n ≠ k := by
        rintro rfl
        exact (List.nodup_cons.mp hnd).1 hk2
      have ih2 := ih (List.nodup_cons.mp hnd).2 hk2
      cases hfn : (parent n).bind
          (fun w => if w = "" then Option.none else some (n, w)) with
      | none => rw [ih2]
      | some b =>
        rw [lookupLast_cons, ih2]
        simp

/-- A parent environment that sets only a proxy variable. -/
def parentC5 : String → Option String := fun k =>
  if k = "HTTPS_PROXY" then some "http://proxy.internal:8080"
  else Option.none

/-- Counterexample to C5: `HTTPS_PROXY` is not on the executor's
allowlist, so a parent-set proxy variable — which the claim names as an
example of an observable allowlisted variable — is not observable by the
child. -/
theorem proxy_not_forwarded_counterexample :
    parentC5 "HTTPS_PROXY" = some "http://proxy.internal:8080" ∧
      "HTTPS_PROXY" ∉ ENV_ALLOWLIST ∧
      safeEnvLookup parentC5 [] "HTTPS_PROXY" = Option.none := by decide

/-- C5 (amended): the child environment built by `buildSafeEnv` forces
`CI='true'` and `NO_COLOR='1'`; apart from those two names, a variable
that is neither on the allowlist (`PATH`, `HOME`, `USER`, `TERM`,
`LANG`, `SHELL`, `TMPDIR`, `XDG_CONFIG_HOME`, `XDG_DATA_HOME` — no
proxy variables) nor an override is never observable, an allowlisted
parent variable with a non-empty value is observable, and any override
is observable. -/
theorem buildSafeEnv_allowlist_spec (parent : String → Option String)
    (extra : List (String × String)) (k v : String) :
    (safeEnvLookup parent extra "CI" = some "true" ∧
      safeEnvLookup parent extra "NO_COLOR" = some "1") ∧
    (k ∉ ENV_ALLOWLIST → lookupLast extra k = Option.none → k ≠ "CI" →
      k ≠ "NO_COLOR" → safeEnvLookup parent extra k = Option.none) ∧
    (k ∈ ENV_ALLOWLIST → parent k = some v → v ≠ "" →
      lookupLast extra k = Option.none → k ≠ "CI" → k ≠ "NO_COLOR" →
      safeEnvLookup parent extra k = some v) ∧
    (lookupLast extra k = some v → k ≠ "CI" → k ≠ "NO_COLOR" →
      safeEnvLookup parent extra k = some v) := by
  have hsplit : ∀ q : String, safeEnvLookup parent extra q =
      (lookupLast [("CI", "true"), ("NO_COLOR", "1")] q).elim
        ((lookupLast extra q).elim (lookupLast (allowAssignments parent) q)
          some)
        some := by
    intro q
    simp only [safeEnvLookup, buildSafeEnvList]
    rw [lookupLast_append, lookupLast_append]
  have htail : ∀ q : String, q ≠ "CI" → q ≠ "NO_COLOR" →
      lookupLast [("CI", "true"), ("NO_COLOR", "1")] q = Option.none := by
    intro q h1 h2
    refine lookupLast_eq_none_of _ _ fun p hp => ?_
    rcases List.mem_cons.mp hp with rfl | hp2
    · exact fun hk => h1 hk.symm
    · rcases List.mem_cons.mp hp2 with rfl | hp3
      · exact fun hk => h2 hk.symm
      · cases hp3
  refine ⟨⟨?_, ?_⟩, ?_, ?_, ?_⟩
  · rw [hsplit]
    rfl
  · rw [hsplit]
    rfl
  · intro hal hextra h1 h2
    rw [hsplit, htail k h1 h2, hextra]
    simp only [Option.elim]
    refine lookupLast_eq_none_of _ _ fun p hp hpk => ?_
    have := fst_mem_of_mem_filterMap ENV_ALLOWLIST parent p hp
    rw [hpk] at this
    exact hal this
  · intro hal hv hne hextra h1 h2
    rw [hsplit, htail k h1 h2, hextra]
    simp only [Option.elim]
    exact lookupLast_filterMap_names ENV_ALLOWLIST parent k v (by decide)
      hal hv hne
  · intro hextra h1 h2
    rw [hsplit, htail k h1 h2, hextra]
    rfl

/-- Witness for the amended C5: with a parent that sets only
`HTTPS_PROXY`, an override `FOO=bar` is observable by the child. -/
theorem buildSafeEnv_allowlist_spec_witness :
    safeEnvLookup parentC5 [("FOO", "bar")] "FOO" = some "bar" :=
  (buildSafeEnv_allowlist_spec parentC5 [("FOO", "bar")] "FOO" "bar").2.2.2
    (by decide) (by decide) (by decide)

end Counselors

namespace Counselors

/-! ## Claim theorems: executor output capture cap (C6) -/

/-- Invariant of the stdout accumulator: under the ceiling while not
truncated; exactly ceiling-plus-marker, marker-suffixed, once
truncated. -/
def StdoutInv (s : StdoutAcc) : Prop :=
  (s.truncated = false → s.out.length < MAX_OUTPUT_BYTES) ∧
  (s.truncated = true →
    s.out.length = MAX_OUTPUT_BYTES + TRUNC_MARKER.length ∧
    TRUNC_MARKER <:+ s.out)

lemma stdoutStep_of_truncated (s : StdoutAcc) (c : List Char)
    (ht : s.truncated = true) : stdoutStep s c = s := by
  simp [stdoutStep, ht]

lemma stdout_foldl_of_truncated (chunks : List (List Char)) (s : StdoutAcc)
    (ht : s.truncated = true) : chunks.foldl stdoutStep s = s := by
  induction chunks with
  | nil => rfl
  | cons c t ih =>
    rw [List.foldl_cons, stdoutStep_of_truncated s c ht]
    exact ih

lemma stdoutStep_inv (s : StdoutAcc) (c : List Char) (h : StdoutInv s) :
    StdoutInv (stdoutStep s c) := by
  by_cases ht : s.truncated = true
  · rw [stdoutStep_of_truncated s c ht]
    exact h
  · have ht' : s.truncated = false := eq_false_of_ne_true ht
    have hlen : s.out.length < MAX_OUTPUT_BYTES := h.1 ht'
    have hcond : (!s.truncated &&
        decide (s.out.length < MAX_OUTPUT_BYTES)) = true := by
      simp [ht', hlen]
    unfold stdoutStep
    rw [if_pos hcond]
    by_cases hM : MAX_OUTPUT_BYTES ≤ (s.out ++ c).length
    · rw [if_pos hM]
      refine ⟨fun hf => by simp at hf, fun _ => ?_⟩
      constructor
      · rw [List.length_append, List.length_take, Nat.min_eq_left hM]
      · exact ⟨(s.out ++ c).take MAX_OUTPUT_BYTES, rfl⟩
    · rw [if_neg hM]
      exact ⟨fun _ => Nat.lt_of_not_le hM, fun hf => by simp at hf⟩

lemma stdout_foldl_inv (chunks : List (List Char)) :
    ∀ s : StdoutAcc, StdoutInv s → StdoutInv (chunks.foldl stdoutStep s) := by
  induction chunks with
  | nil => exact fun s h => h
  | cons c t ih =>
    intro s h
    rw [List.foldl_cons]
    exact ih _ (stdoutStep_inv s c h)

lemma stdoutInit_inv : StdoutInv ⟨[], false⟩ :=
  ⟨fun _ => by norm_num [MAX_OUTPUT_BYTES], fun hf => by cases hf⟩

lemma stdoutAfter_inv (chunks : List (List Char)) :
    StdoutInv (stdoutAfter chunks) :=
  stdout_foldl_inv chunks _ stdoutInit_inv

lemma stdout_foldl_join (chunks : List (List Char)) :
    ∀ s : StdoutAcc, StdoutInv s →
      (chunks.foldl stdoutStep s).truncated = false →
      (chunks.foldl stdoutStep s).out = s.out ++ chunks.join := by
  induction chunks with
  | nil =>
    intro s _ _
    simp
  | cons c t ih =>
    intro s hinv hfin
    rw [List.foldl_cons] at hfin ⊢
    by_cases ht : s.truncated = true
    · rw [stdoutStep_of_truncated s c ht,
        stdout_foldl_of_truncated t s ht] at hfin
      rw [ht] at hfin
      cases hfin
    · have ht' : s.truncated = false := eq_false_of_ne_true ht
      have hlen := hinv.1 ht'
      have hcond : (!s.truncated &&
          decide (s.out.length < MAX_OUTPUT_BYTES)) = true := by
        simp [ht', hlen]
      by_cases hM : MAX_OUTPUT_BYTES ≤ (s.out ++ c).length
      · have hstep : stdoutStep s c =
            ⟨(s.out ++ c).take MAX_OUTPUT_BYTES ++ TRUNC_MARKER, true⟩ := by
          unfold stdoutStep
          rw [if_pos hcond, if_pos hM]
        rw [hstep, stdout_foldl_of_truncated t _ rfl] at hfin
        cases hfin
      · have hstep : stdoutStep s c = ⟨s.out ++ c, false⟩ := by
          unfold stdoutStep
          rw [if_pos hcond, if_neg hM]
        rw [hstep] at hfin ⊢
        have hinv2 : StdoutInv ⟨s.out ++ c, false⟩ :=
          ⟨fun _ => Nat.lt_of_not_le hM, fun hf => by simp at hf⟩
        rw [ih _ hinv2 hfin]
        simp

lemma stderr_foldl_bound (chunks : List (List Char)) :
    ∀ (s : List Char) (M : Nat), (∀ c ∈ chunks, c.length ≤ M) →
      s.length ≤ MAX_OUTPUT_BYTES - 1 + M →
      (chunks.foldl stderrStep s).length ≤ MAX_OUTPUT_BYTES - 1 + M := by
  induction chunks with
  | nil =>
    intro s M _ hs
    simpa using hs
  | cons c t ih =>
    intro s M hc hs
    rw [List.foldl_cons]
    refine ih _ M (fun d hd => hc d (List.mem_cons_of_mem c hd)) ?_
    unfold stderrStep
    by_cases h : s.length < MAX_OUTPUT_BYTES
    · rw [if_pos h, List.length_append]
      have h2 : c.length ≤ M := hc c (List.mem_cons_self c t)
      have h3 : 0 < MAX_OUTPUT_BYTES := by norm_num [MAX_OUTPUT_BYTES]
      omega
    · rw [if_neg h]
      exact hs

/-- The length of the largest single data chunk. -/
def maxChunkLen (chunks : List (List Char)) : Nat :=
  (chunks.map List.length).foldr max 0

lemma le_maxChunkLen (chunks : List (List Char)) (c : List Char)
    (h : c ∈ chunks) : c.length ≤ maxChunkLen chunks := by
  induction chunks with
  | nil => cases h
  | cons d t ih =>
    rcases List.mem_cons.mp h with rfl | h2
    · exact le_max_left _ _
    · exact le_trans (ih h2) (le_max_right _ _)

/-- The first stderr data event: one character below the ceiling. -/
def stderrChunkA : List Char := List.replicate (MAX_OUTPUT_BYTES - 1) 'a'

/-- The second stderr data event: marker length plus two characters. -/
def stderrChunkB : List Char := List.replicate (TRUNC_MARKER.length + 2) 'b'

/-- Counterexample to C6: a process whose stderr stream emits a chunk of
`MAX_OUTPUT_BYTES - 1` characters followed by one more chunk ends with a
captured stderr strictly longer than the ceiling plus the truncation
marker — the stderr handler has no slice-and-mark step, so the last
accepted chunk overshoots the ceiling. -/
theorem stderr_exceeds_cap_counterexample :
    MAX_OUTPUT_BYTES + TRUNC_MARKER.length <
      (stderrAfter [stderrChunkA, stderrChunkB]).length := by
  have hA : stderrChunkA.length = MAX_OUTPUT_BYTES - 1 := by
    simp [stderrChunkA]
  have hB : stderrChunkB.length = TRUNC_MARKER.length + 2 := by
    simp [stderrChunkB]
  have h1 : stderrStep [] stderrChunkA = stderrChunkA := by
    unfold stderrStep
    rw [if_pos]
    · simp
    · show ([] : List Char).length < MAX_OUTPUT_BYTES
      norm_num [MAX_OUTPUT_BYTES]
  have h2 : stderrStep stderrChunkA stderrChunkB =
      stderrChunkA ++ stderrChunkB := by
    unfold stderrStep
    rw [if_pos]
    rw [hA]
    norm_num [MAX_OUTPUT_BYTES]
  have hfin : stderrAfter [stderrChunkA, stderrChunkB] =
      stderrChunkA ++ stderrChunkB := by
    simp only [stderrAfter, List.foldl_cons, List.foldl_nil, h1, h2]
  rw [hfin, List.length_append, hA, hB]
  have h3 : 0 < MAX_OUTPUT_BYTES := by norm_num [MAX_OUTPUT_BYTES]
  omega

/-- C6 (amended): the stdout stream satisfies the claim — its final
captured length is at most the ceiling plus the truncation-marker
length, and once the emitted total reaches the ceiling the marker is
appended (with the length then exactly ceiling plus marker).  The stderr
stream stops accepting chunks at the ceiling but performs no
slice-and-mark: its final length is only bounded by the ceiling minus
one plus the largest single chunk. -/
theorem executor_output_cap (chunks : List (List Char)) :
    (stdoutAfter chunks).out.length ≤
      MAX_OUTPUT_BYTES + TRUNC_MARKER.length ∧
    (MAX_OUTPUT_BYTES ≤ (chunks.map List.length).sum →
      TRUNC_MARKER <:+ (stdoutAfter chunks).out ∧
      (stdoutAfter chunks).out.length =
        MAX_OUTPUT_BYTES + TRUNC_MARKER.length) ∧
    (stderrAfter chunks).length ≤
      MAX_OUTPUT_BYTES - 1 + maxChunkLen chunks := by
  have hinv := stdoutAfter_inv chunks
  refine ⟨?_, ?_, ?_⟩
  · cases ht : (stdoutAfter chunks).truncated
    · exact le_of_lt (lt_of_lt_of_le (hinv.1 ht) (Nat.le_add_right _ _))
    · exact le_of_eq (hinv.2 ht).1
  · intro hsum
    cases ht : (stdoutAfter chunks).truncated
    · have hj := stdout_foldl_join chunks ⟨[], false⟩ stdoutInit_inv ht
      have hj2 : (stdoutAfter chunks).out = chunks.join := by
        simpa using hj
      have hlen := hinv.1 ht
      rw [hj2, List.length_join] at hlen
      omega
    · exact ⟨(hinv.2 ht).2, (hinv.2 ht).1⟩
  · exact stderr_foldl_bound chunks [] (maxChunkLen chunks)
      (fun c h => le_maxChunkLen chunks c h) (by simp)

/-- Witness for the amended C6: a single chunk of exactly the ceiling
size triggers truncation and the marker suffix. -/
theorem executor_output_cap_witness :
    TRUNC_MARKER <:+
      (stdoutAfter [List.replicate MAX_OUTPUT_BYTES 'x']).out :=
  ((executor_output_cap [List.replicate MAX_OUTPUT_BYTES 'x']).2.1
    (by simp)).1

end Counselors
